import Mathlib

/-!
Verification of the BookBlend scraper module (src/api/helper_functions.py).

The Python module is shallowly embedded: pure string manipulation is modelled
on List Char / String, pandas Series operations are modelled elementwise on
Option-valued cells, and external library calls (network fetches,
pandas.to_datetime, the re module searches over whole fetched pages) are
modelled as function parameters supplied to the embedded code.
-/

/-- Characters treated as whitespace by Python str.split() / str.strip()
(ASCII range, which is what the scraped cells contain). -/
def isPySpace (c : Char) : Bool :=
  c == ' ' || c == '\t' || c == '\n' || c == '\r' || c == '\x0b' || c == '\x0c'

/-- Drop leading whitespace: the left half of Python str.strip(). -/
def trimL (l : List Char) : List Char := l.dropWhile isPySpace

/-- Python str.strip(): drop leading and trailing whitespace. -/
def pyStrip (l : List Char) : List Char := (trimL (trimL l).reverse).reverse

/-- Python str.strip() at the String level. -/
def pyStripS (s : String) : String := String.mk (pyStrip s.data)

/-- Whether pat occurs as a contiguous substring (Python "pat in s"). -/
def containsSub (pat : List Char) : List Char → Bool
  | [] => pat.isEmpty
  | c :: cs => pat.isPrefixOf (c :: cs) || containsSub pat cs

/-- Python s.replace(pat, rep, 1): replace the first occurrence of pat, if any. -/
def replFirstL (pat rep : List Char) : List Char → List Char
  | [] => []
  | c :: cs =>
    if pat.isPrefixOf (c :: cs) then rep ++ (c :: cs).drop pat.length
    else c :: replFirstL pat rep cs

/-- Text after the first occurrence of pat that starts at index at least 1
(the regex (.+?) requires one preceding character); none when no such
occurrence exists.  Models re.search group extraction for newline-free cells. -/
def afterFirstMarker (pat : List Char) : List Char → Option (List Char)
  | [] => none
  | _ :: cs =>
    if pat.isPrefixOf cs then some (cs.drop pat.length) else afterFirstMarker pat cs

/-- Text after the first occurrence of pat anywhere; none when pat is absent. -/
def afterSub (pat : List Char) : List Char → Option (List Char)
  | [] => if pat.isEmpty then some [] else none
  | c :: cs =>
    if pat.isPrefixOf (c :: cs) then some ((c :: cs).drop pat.length)
    else afterSub pat cs

/-- Python str.split() (no separator argument): split on whitespace runs,
discarding empty fields.  acc is the current partially read token, reversed. -/
def splitWSAcc : List Char → List Char → List (List Char)
  | [], acc => if acc = [] then [] else [acc.reverse]
  | c :: cs, acc =>
    if isPySpace c then
      if acc = [] then splitWSAcc cs [] else acc.reverse :: splitWSAcc cs []
    else splitWSAcc cs (c :: acc)

/-- Python str.split() on a String. -/
def pySplit (s : String) : List (List Char) := splitWSAcc s.data []

/-- Numeric value of a digit string, as pd.to_numeric reads it. -/
def digitsToNat (l : List Char) : Nat :=
  l.foldl (fun acc c => acc * 10 + (c.toNat - 48)) 0

/-- First maximal digit run in the text, as a number: the regex (\d+) applied
by str.extract followed by pd.to_numeric; none when the cell has no digit. -/
def extractFirstInt : List Char → Option Nat
  | [] => none
  | c :: cs =>
    if c.isDigit then some (digitsToNat (c :: cs.takeWhile Char.isDigit))
    else extractFirstInt cs

/-- Remove every comma (Python str.replace(",", "")). -/
def removeCommas (s : String) : String := String.mk (s.data.filter (fun c => c ≠ ','))

/-! ### get_all_goodreads_user_books (helper_functions.py lines 104-118)

The pagination driver.  The network-and-parse step
get_goodreads_user_books_by_page(user_id, page_num) is modelled as an
abstract function fetch from page numbers to parsed row lists (the user id is
fixed throughout one call).  The unbounded while-loop is given explicit fuel;
the claim quantifies over every sufficiently large fuel, which expresses that
the loop stops at the first empty page. -/

/-- Embedding of get_all_goodreads_user_books: starting from the given page,
fetch a page per iteration, stop on the first page that parses to no rows,
and otherwise append the page's rows and advance the page number. -/
def get_all_goodreads_user_books {β : Type} (fetch : Nat → List β) :
    Nat → Nat → List β
  | 0, _ => []
  | fuel + 1, page =>
    if (fetch page).isEmpty then []
    else fetch page ++ get_all_goodreads_user_books fetch fuel (page + 1)

/-! ### combine_goodreads_and_hardcover (helper_functions.py lines 168-169)

pd.merge(goodreads_df, hardcover_df, left_on="goodreads_id",
right_on="external_id", how="left").  Tables are modelled as lists of rows
keyed by their join column; the non-key book columns are an abstract payload
β and the genre tags an abstract payload γ.  A left merge emits, for every
book row in order, one output row per matching genre row (in genre order),
or a single row with an absent (NaN) genre payload when nothing matches. -/

/-- Output rows contributed by a single book row: one row per matching genre
row, or a single row with absent tags when no genre row matches. -/
def joinBlock {β γ : Type} (b : String × β) (genres : List (String × γ)) :
    List (String × β × Option γ) :=
  match genres.filter (fun g => g.1 == b.1) with
  | [] => [(b.1, b.2, (none : Option γ))]
  | m :: ms => (m :: ms).map (fun g => (b.1, b.2, some g.2))

/-- Embedding of combine_goodreads_and_hardcover as a pandas left merge on
goodreads_id = external_id. -/
def leftJoin {β γ : Type} :
    List (String × β) → List (String × γ) → List (String × β × Option γ)
  | [], _ => []
  | b :: bs, genres => joinBlock b genres ++ leftJoin bs genres

/-! ### format_date (lines 36-42) and format_and_convert_date (lines 44-48) -/

/-- Embedding of format_date: pd.NA (modelled none) propagates; a value
containing "not set" as a substring maps to NA; a two-token "Month Year"
value gets the default day "1" inserted; anything else is returned
unchanged. -/
def format_date (x : Option String) : Option String :=
  match x with
  | none => none
  | some s =>
    if containsSub ("not set").data s.data then none
    else
      match splitWSAcc s.data [] with
      | [a, b] => some (String.mk (a ++ ' ' :: '1' :: ',' :: ' ' :: b))
      | _ => some s

/-- Embedding of the elementwise behaviour of format_and_convert_date after
the prefix-extracting regex: the cell value (none when the regex found no
match), exact "not set" replaced by pd.NA, day "1" inserted into two-token
values, and the result handed to pd.to_datetime(errors="coerce"), modelled
by the abstract parse function that returns none on unparsable input. -/
def format_and_convert_date {α : Type} (parse : String → Option α)
    (x : Option String) : Option α :=
  match x with
  | none => none
  | some s =>
    if s = "not set" then none
    else
      match splitWSAcc s.data [] with
      | [a, b] => parse (String.mk (a ++ ' ' :: '1' :: ',' :: ' ' :: b))
      | _ => parse s

/-! ### Book List Parser cell transforms
(get_goodreads_user_books_by_page, lines 51-102) -/

/-- title transform (line 65): x.replace("title ", "", 1) followed by
str.strip(). -/
def title_transform (s : String) : String :=
  String.mk (pyStrip (replFirstL ("title ").data [] s.data))

/-- author transform (line 66): x.replace("author ", "", 1), then
x.replace(" *", "", 1), then str.strip(). -/
def author_transform (s : String) : String :=
  String.mk
    (pyStrip (replFirstL (" *").data [] (replFirstL ("author ").data [] s.data)))

/-- Modelled from the spec: strip only a leading "title " marker (the
transform table of section 4.3), for comparison with the code's title
transform. -/
def title_transform_spec (s : String) : String :=
  if ("title ").data.isPrefixOf s.data then String.mk (s.data.drop 6) else s

/-- The user_rating vocabulary (lines 82-88): Series.map with the fixed
dictionary; unmapped text becomes NaN. -/
def rating_mapping (s : String) : Option Nat :=
  if s = "did not like it" then some 1
  else if s = "it was ok" then some 2
  else if s = "liked it" then some 3
  else if s = "really liked it" then some 4
  else if s = "it was amazing" then some 5
  else none

/-- user_rating transform (lines 79-89): the second capture group of the
regex (.+?)'s rating\s*(.*?)$ — the text after the first occurrence of
"'s rating" that is preceded by at least one character — stripped and looked
up in the vocabulary.  Faithful to re.search for newline-free cells. -/
def user_rating_transform (cell : String) : Option Nat :=
  match afterFirstMarker ("'s rating").data cell.data with
  | none => none
  | some t => rating_mapping (String.mk (pyStrip t))

/-- read_flag transform (lines 98-100): str.extract((\d+)) takes the first
digit run anywhere in the votes cell; pd.to_numeric of a failed extraction
is NaN, and NaN > 0 evaluates to False, so a cell without digits yields
false rather than a missing value. -/
def read_flag_transform (cell : String) : Bool :=
  match extractFirstInt cell.data with
  | some n => decide (0 < n)
  | none => false

/-- Modelled from the spec: "extract integer after # times read" — the first
digit run after the first occurrence of that marker, for comparison with the
code's read_flag transform. -/
def read_flag_spec_int (cell : String) : Option Nat :=
  match afterSub ("# times read").data cell.data with
  | none => none
  | some t => extractFirstInt t

/-! ### get_user_info (helper_functions.py lines 171-244)

The profile scraper.  BeautifulSoup lookups are modelled by the Soup record:
each find-then-attribute access "soup.find(..)[attr]" is an
Option (Option String) — none when the tag is absent (find returns None, so
the subscript raises TypeError, which the code catches), some none when the
tag exists but lacks the attribute (the subscript raises KeyError, which the
code does NOT catch), and some (some v) for an attribute value v.
soup.find("title").text is Option String (only AttributeError, caught).
The re.search calls over the page text or title are modelled as abstract
matcher functions returning the extracted group or none. -/

/-- DOM query results of one fetched profile page. -/
structure Soup where
  canonical_link : Option (Option String)
  title_text : Option String
  text : String
  og_title : Option (Option String)
  profile_first_name : Option (Option String)
  profile_last_name : Option (Option String)
  profile_username : Option (Option String)

/-- The five re.search patterns of get_user_info, as abstract extractors of
their number-capturing group. -/
structure PageMatchers where
  books_shelved_search : String → Option String
  books_read_search : String → Option String
  currently_reading_search : String → Option String
  to_read_search : String → Option String
  friends_search : String → Option String

/-- The ten text fields of the returned user-profile record, in source
order of the returned dictionary. -/
structure UserInfo where
  user_id : String
  full_name : String
  first_name : String
  last_name : String
  username : String
  books_shelved : String
  number_of_friends : String
  books_read : String
  currently_reading_count : String
  to_read_count : String

/-- Python s.split(sep) for a one-character separator, keeping empty
fields. -/
def pySplitOnChar (sep : Char) : List Char → List (List Char)
  | [] => [[]]
  | c :: cs =>
    let r := pySplitOnChar sep cs
    if c == sep then [] :: r
    else (c :: r.headD []) :: r.tail

/-- canonical_link.split("/")[-1].split("-")[0] (line 178). -/
def extract_user_id (href : String) : String :=
  String.mk
    ((pySplitOnChar '-' ((pySplitOnChar '/' href.data).getLastD [])).headD [])

/-- One find-then-attribute access inside its try/except TypeError block:
absent tag is caught and yields the empty field, an attribute value is
transformed by f, but a tag without the attribute raises an uncaught
KeyError (the error branch). -/
def tagAttr (x : Option (Option String)) (f : String → String) :
    Except Unit String :=
  match x with
  | none => Except.ok ""
  | some none => Except.error ()
  | some (some v) => Except.ok (f v)

/-- Embedding of get_user_info: ten independent field extractions, each
falling back to "" when its own lookup or pattern match fails; a
tag-present-attribute-missing lookup propagates as an uncaught exception. -/
def get_user_info (m : PageMatchers) (s : Soup) : Except Unit UserInfo := do
  let uid ← tagAttr s.canonical_link extract_user_id
  let shelved :=
    ((s.title_text.bind m.books_shelved_search).map removeCommas).getD ""
  let read := ((m.books_read_search s.text).map removeCommas).getD ""
  let current :=
    ((m.currently_reading_search s.text).map removeCommas).getD ""
  let toread := ((m.to_read_search s.text).map removeCommas).getD ""
  let fullname ← tagAttr s.og_title (fun v => v)
  let firstname ← tagAttr s.profile_first_name (fun v => v)
  let lastname ← tagAttr s.profile_last_name (fun v => v)
  let uname ← tagAttr s.profile_username (fun v => v)
  let friends := (m.friends_search s.text).getD ""
  Except.ok
    ⟨uid, fullname, firstname, lastname, uname, shelved, friends, read,
      current, toread⟩

/-- A concrete soup whose canonical link tag exists but carries no href. -/
def soupKeyErr : Soup := ⟨some none, none, "", none, none, none, none⟩

/-- A concrete soup with all tags and attributes present. -/
def soupOk : Soup :=
  ⟨some (some "https://www.goodreads.com/user/show/123-jane"), some "t", "",
    some (some "Jane Doe"), some (some "Jane"), some (some "Doe"),
    some (some "janed")⟩

/-- Concrete matchers for which every pattern search fails. -/
def noMatchers : PageMatchers :=
  ⟨fun _ => none, fun _ => none, fun _ => none, fun _ => none, fun _ => none⟩

/-! ### get_api_key (helper_functions.py lines 28-34)

BOOKBLEND_API_KEY is os.getenv of an environment variable, hence an optional
string (None when unset).  Python compares a str header against that value
with ==, which is False whenever the right side is None. -/

/-- Embedding of get_api_key: the header is returned when it equals the
configured secret, otherwise an HTTPException with status 401 and the fixed
detail string is raised (modelled as the error branch of Except). -/
def get_api_key (secret : Option String) (header : String) :
    Except (Nat × String) String :=
  if some header = secret then Except.ok header
  else Except.error (401, "401: Invalid API Key")

/-! ## Theorems -/

/-! ### Lemmas about the Python string primitives -/

/-- splitWSAcc consumes a whitespace-free run into the accumulator. -/
theorem splitWSAcc_run (t : List Char) :
    ∀ rest acc : List Char, (∀ c ∈ t, isPySpace c = false) →
      splitWSAcc (t ++ rest) acc = splitWSAcc rest (t.reverse ++ acc) := by
  induction t with
  | nil => intro rest acc _; simp
  | cons c ts ih =>
    intro rest acc h
    have hc : isPySpace c = false := h c (by simp)
    simp only [List.cons_append, splitWSAcc, hc, Bool.false_eq_true, if_false,
      List.append_eq]
    rw [ih rest (c :: acc) (fun x hx => h x (by simp [hx]))]
    simp

/-- splitWSAcc at a space flushes a non-empty accumulator as one token. -/
theorem splitWSAcc_space (rest acc : List Char) (h : acc ≠ []) :
    splitWSAcc (' ' :: rest) acc = acc.reverse :: splitWSAcc rest [] := by
  have hs : isPySpace ' ' = true := by decide
  simp [splitWSAcc, hs, h]

/-- Every token produced by splitWSAcc is non-empty and whitespace-free. -/
theorem splitWSAcc_tokens :
    ∀ l acc : List Char, (∀ c ∈ acc, isPySpace c = false) →
      ∀ t ∈ splitWSAcc l acc, t ≠ [] ∧ ∀ c ∈ t, isPySpace c = false := by
  intro l
  induction l with
  | nil =>
    intro acc hacc t ht
    by_cases ha : acc = []
    · simp [splitWSAcc, ha] at ht
    · simp only [splitWSAcc, ha, if_false, List.mem_singleton] at ht
      subst ht
      refine ⟨by simpa using ha, ?_⟩
      intro c hc
      exact hacc c (List.mem_reverse.mp hc)
  | cons c cs ih =>
    intro acc hacc t ht
    cases hc : isPySpace c with
    | true =>
      by_cases ha : acc = []
      · rw [show splitWSAcc (c :: cs) acc = splitWSAcc cs [] by
          simp [splitWSAcc, hc, ha]] at ht
        exact ih [] (by simp) t ht
      · rw [show splitWSAcc (c :: cs) acc = acc.reverse :: splitWSAcc cs [] by
          simp [splitWSAcc, hc, ha]] at ht
        rcases List.mem_cons.mp ht with ht' | ht'
        · subst ht'
          refine ⟨by simpa using ha, ?_⟩
          intro x hx
          exact hacc x (List.mem_reverse.mp hx)
        · exact ih [] (by simp) t ht'
    | false =>
      rw [show splitWSAcc (c :: cs) acc = splitWSAcc cs (c :: acc) by
        simp [splitWSAcc, hc]] at ht
      refine ih (c :: acc) ?_ t ht
      intro x hx
      rcases List.mem_cons.mp hx with hx' | hx'
      · subst hx'; exact hc
      · exact hacc x hx'

/-- Dropping leading whitespace twice is the same as doing it once. -/
theorem trimL_trimL (l : List Char) : trimL (trimL l) = trimL l := by
  induction l with
  | nil => rfl
  | cons c cs ih =>
    cases hc : isPySpace c with
    | true => simp [trimL, List.dropWhile_cons, hc] at ih ⊢; exact ih
    | false => simp [trimL, List.dropWhile_cons, hc]

/-- The head of a left-trimmed list is never whitespace. -/
theorem head?_trimL (l : List Char) :
    ∀ c, (trimL l).head? = some c → isPySpace c = false := by
  induction l with
  | nil => intro c h; simp [trimL] at h
  | cons a as ih =>
    intro c h
    cases ha : isPySpace a with
    | true =>
      rw [show trimL (a :: as) = trimL as by simp [trimL, List.dropWhile_cons, ha]] at h
      exact ih c h
    | false =>
      rw [show trimL (a :: as) = a :: as by simp [trimL, List.dropWhile_cons, ha]] at h
      simp only [List.head?_cons, Option.some.injEq] at h
      rw [← h]
      exact ha

/-- Left-trimming preserves the last element when the result is non-empty. -/
theorem getLast?_trimL (l : List Char) :
    trimL l ≠ [] → (trimL l).getLast? = l.getLast? := by
  induction l with
  | nil => intro h; simp [trimL] at h
  | cons a as ih =>
    intro h
    cases ha : isPySpace a with
    | true =>
      have heq : trimL (a :: as) = trimL as := by
        simp [trimL, List.dropWhile_cons, ha]
      rw [heq] at h ⊢
      have has : as ≠ [] := by
        intro e; rw [e] at h; exact h rfl
      rw [ih h]
      cases as with
      | nil => exact absurd rfl has
      | cons b bs => simp [List.getLast?_cons_cons]
    | false =>
      rw [show trimL (a :: as) = a :: as by simp [trimL, List.dropWhile_cons, ha]]

/-- A list whose head is not whitespace is unchanged by left trimming. -/
theorem trimL_eq_self (l : List Char)
    (h : ∀ c, l.head? = some c → isPySpace c = false) : trimL l = l := by
  cases l with
  | nil => rfl
  | cons a as =>
    have ha := h a (by simp)
    simp [trimL, List.dropWhile_cons, ha]

/-- A fully stripped list has no leading whitespace left. -/
theorem trimL_pyStrip (l : List Char) : trimL (pyStrip l) = pyStrip l := by
  by_cases h : pyStrip l = []
  · rw [h]; rfl
  · apply trimL_eq_self
    intro c hc
    have h1 : (pyStrip l).head? = (trimL (trimL l).reverse).getLast? :=
      List.head?_reverse _
    have h2 : trimL (trimL l).reverse ≠ [] := by
      intro e
      apply h
      show (trimL (trimL l).reverse).reverse = []
      rw [e]; rfl
    have h3 : (trimL (trimL l).reverse).getLast? = ((trimL l).reverse).getLast? :=
      getLast?_trimL _ h2
    have h4 : ((trimL l).reverse).getLast? = (trimL l).head? :=
      List.getLast?_reverse _
    rw [h1, h3, h4] at hc
    exact head?_trimL l c hc

/-- Python str.strip() is idempotent. -/
theorem pyStrip_idem (l : List Char) : pyStrip (pyStrip l) = pyStrip l := by
  have h1 : trimL (pyStrip l) = pyStrip l := trimL_pyStrip l
  calc pyStrip (pyStrip l)
      = (trimL (trimL (pyStrip l)).reverse).reverse := rfl
    _ = (trimL (pyStrip l).reverse).reverse := by rw [h1]
    _ = (trimL (trimL (trimL l).reverse)).reverse := by
        rw [show (pyStrip l).reverse = trimL (trimL l).reverse from
          List.reverse_reverse _]
    _ = (trimL (trimL l).reverse).reverse := by rw [trimL_trimL]
    _ = pyStrip l := rfl

/-- Stripping ignores one more leading space. -/
theorem pyStrip_cons_space (l : List Char) : pyStrip (' ' :: l) = pyStrip l := by
  have hsp : isPySpace ' ' = true := by decide
  show (trimL (trimL (' ' :: l)).reverse).reverse = pyStrip l
  rw [show trimL (' ' :: l) = trimL l by simp [trimL, List.dropWhile_cons, hsp]]
  rfl

/-- Characters of a true prefix all belong to the larger list. -/
theorem isPrefixOf_mem {pat l : List Char} (h : pat.isPrefixOf l = true) :
    ∀ c ∈ pat, c ∈ l := by
  rw [List.isPrefixOf_iff_prefix] at h
  obtain ⟨t, rfl⟩ := h
  intro c hc
  exact List.mem_append_left t hc

/-- "not set" cannot occur inside a whitespace-free list. -/
theorem containsSub_notset_spacefree (l : List Char)
    (h : ∀ c ∈ l, isPySpace c = false) :
    containsSub ("not set").data l = false := by
  induction l with
  | nil => decide
  | cons c cs ih =>
    have h1 : ("not set").data.isPrefixOf (c :: cs) = false := by
      cases hp : ("not set").data.isPrefixOf (c :: cs) with
      | false => rfl
      | true =>
        have hsp : (' ' : Char) ∈ c :: cs :=
          isPrefixOf_mem hp ' ' (by decide)
        exact absurd (h ' ' hsp) (by decide)
    have h2 := ih (fun x hx => h x (by simp [hx]))
    simp [containsSub, h1, h2]

/-- When the pattern does not occur, Python replace(pat, rep, 1) is the
identity. -/
theorem replFirstL_of_not_contains (pat rep : List Char) :
    ∀ l, containsSub pat l = false → replFirstL pat rep l = l := by
  intro l
  induction l with
  | nil => intro _; rfl
  | cons c cs ih =>
    intro h
    simp only [containsSub, Bool.or_eq_false_iff] at h
    simp only [replFirstL, h.1, Bool.false_eq_true, if_false]
    rw [ih h.2]

/-- Python replace removes the pattern when the string starts with it. -/
theorem replFirstL_append (pat rest : List Char) (hp : pat ≠ []) :
    replFirstL pat [] (pat ++ rest) = rest := by
  cases pat with
  | nil => exact absurd rfl hp
  | cons p ps =>
    have hpre : (p :: ps).isPrefixOf ((p :: ps) ++ rest) = true := by
      rw [List.isPrefixOf_iff_prefix]
      exact ⟨rest, rfl⟩
    simp only [List.cons_append, replFirstL, List.append_eq]
    rw [show ((p :: ps).isPrefixOf (p :: (ps ++ rest))) = true from hpre]
    simp [List.drop_left']

/-- Loop invariant of the pagination driver: if the n-th page after the start
page is the first empty one, the loop returns the concatenation of the n
preceding pages, for every fuel large enough to reach it. -/
theorem get_all_goodreads_spec {β : Type} (fetch : Nat → List β) :
    ∀ n fuel page : Nat, n < fuel → fetch (page + n) = [] →
      (∀ k, k < n → fetch (page + k) ≠ []) →
      get_all_goodreads_user_books fetch fuel page
        = ((List.range n).map (fun k => fetch (page + k))).flatten := by
  intro n
  induction n with
  | zero =>
    intro fuel page hf h0 _
    match fuel, hf with
    | fuel + 1, _ =>
      have h0' : fetch page = [] := by simpa using h0
      simp [get_all_goodreads_user_books, h0']
  | succ n ih =>
    intro fuel page hf hend hne
    match fuel, hf with
    | fuel + 1, hf =>
      have h0 : fetch page ≠ [] := by simpa using hne 0 (Nat.succ_pos n)
      have hend' : fetch (page + 1 + n) = [] := by
        have harg : page + 1 + n = page + (n + 1) := by omega
        rw [harg]; exact hend
      have hne' : ∀ k, k < n → fetch (page + 1 + k) ≠ [] := by
        intro k hk
        have harg : page + 1 + k = page + (k + 1) := by omega
        rw [harg]; exact hne (k + 1) (by omega)
      have hlt : n < fuel := Nat.lt_of_succ_lt_succ hf
      rw [get_all_goodreads_user_books, if_neg (by simpa [List.isEmpty_iff] using h0),
        ih fuel (page + 1) hlt hend' hne']
      rw [List.range_succ_eq_map, List.map_cons, List.map_map, List.flatten_cons]
      congr 1
      congr 1
      apply List.map_congr_left
      intro k _
      have harg : page + 1 + k = page + (k + 1) := by omega
      simp [Function.comp, harg]

/-- C1: for every user (modelled by its page-indexed fetch-and-parse
function), the pagination driver starts at page 1, and if pages 1..N are
non-empty while page N+1 parses to zero rows, then (for every fuel large
enough, i.e. under the precondition that the loop terminates) the returned
list is exactly the concatenation of the records of pages 1..N in page
order, stopping at the first empty page. -/
theorem C1_pagination {β : Type} (fetch : Nat → List β) (N fuel : Nat)
    (hfuel : N < fuel) (hempty : fetch (N + 1) = [])
    (hfull : ∀ i, 1 ≤ i → i ≤ N → fetch i ≠ []) :
    get_all_goodreads_user_books fetch fuel 1
      = ((List.range N).map (fun k => fetch (k + 1))).flatten := by
  have h := get_all_goodreads_spec fetch N fuel 1 hfuel
    (by rw [Nat.add_comm]; exact hempty)
    (by
      intro k hk
      have harg : (1 : Nat) + k = k + 1 := Nat.add_comm 1 k
      rw [harg]; exact hfull (k + 1) (by omega) (by omega))
  rw [h]
  congr 1
  apply List.map_congr_left
  intro k _
  rw [Nat.add_comm]

/-- Witness for C1 at a concrete fetch function with two non-empty pages. -/
theorem C1_witness :
    get_all_goodreads_user_books
      (fun p => if p = 1 then [10] else if p = 2 then [20, 21] else ([] : List Nat))
      3 1 = [10, 20, 21] := by
  have h := C1_pagination
    (fun p => if p = 1 then [10] else if p = 2 then [20, 21] else ([] : List Nat))
    2 3 (by omega) (by norm_num)
    (by intro i h1 h2; interval_cases i <;> simp)
  simpa using h

/-- If every element of a list is mapped to a positive count, the sum of the
counts dominates the length. -/
theorem length_le_sum_map {α : Type} (l : List α) (f : α → Nat)
    (h : ∀ x ∈ l, 1 ≤ f x) : l.length ≤ (l.map f).sum := by
  induction l with
  | nil => simp
  | cons c cs ih =>
    have h1 : 1 ≤ f c := h c (by simp)
    have h2 : cs.length ≤ (cs.map f).sum := ih (fun x hx => h x (by simp [hx]))
    simp only [List.map_cons, List.sum_cons, List.length_cons]
    omega

/-- The number of rows a single book contributes to the left merge. -/
theorem joinBlock_length {β γ : Type} (b : String × β)
    (genres : List (String × γ)) :
    (joinBlock b genres).length
      = max (genres.filter (fun g => g.1 == b.1)).length 1 := by
  rcases h : genres.filter (fun g => g.1 == b.1) with _ | ⟨m, ms⟩
  · simp [joinBlock, h]
  · simp only [joinBlock, h, List.map_cons, List.length_cons, List.length_map]
    omega

/-- Row count of the left merge: each book contributes its match count, or
one row when unmatched. -/
theorem leftJoin_length {β γ : Type} (books : List (String × β))
    (genres : List (String × γ)) :
    (leftJoin books genres).length
      = (books.map
          (fun b => max (genres.filter (fun g => g.1 == b.1)).length 1)).sum := by
  induction books with
  | nil => simp [leftJoin]
  | cons b bs ih =>
    simp only [leftJoin, List.length_append, List.map_cons, List.sum_cons, ih,
      joinBlock_length]

/-- When the genre keys are pairwise distinct, every key matches at most one
genre row. -/
theorem filter_key_len_le_one {γ : Type} (genres : List (String × γ))
    (hnd : (genres.map Prod.fst).Nodup) (k : String) :
    (genres.filter (fun g => g.1 == k)).length ≤ 1 := by
  induction genres with
  | nil => simp
  | cons g gs ih =>
    simp only [List.map_cons, List.nodup_cons] at hnd
    rw [List.filter_cons]
    by_cases hk : (g.1 == k) = true
    · have hnil : gs.filter (fun x => x.1 == k) = [] := by
        rw [List.filter_eq_nil_iff]
        intro x hx hxk
        apply hnd.1
        have hx1 : x.1 = k := by simpa using hxk
        have hg1 : g.1 = k := by simpa using hk
        rw [hg1, ← hx1]
        exact List.mem_map_of_mem Prod.fst hx
      simp [hk, hnil]
    · simp only [hk, if_false]
      exact ih hnd.2

/-- An unmatched book row survives the left merge as a row with absent tags. -/
theorem leftJoin_mem_unmatched {β γ : Type} (genres : List (String × γ)) :
    ∀ (books : List (String × β)) (b : String × β), b ∈ books →
      b.1 ∉ genres.map Prod.fst →
      (b.1, b.2, (none : Option γ)) ∈ leftJoin books genres := by
  intro books
  induction books with
  | nil => intro b hb; simp at hb
  | cons b' bs ih =>
    intro b hb hnot
    rcases List.mem_cons.mp hb with hb' | hb'
    · subst hb'
      have hnil : genres.filter (fun g => g.1 == b.1) = [] := by
        rw [List.filter_eq_nil_iff]
        intro g hg hgk
        apply hnot
        have hg1 : g.1 = b.1 := by simpa using hgk
        rw [← hg1]
        exact List.mem_map_of_mem Prod.fst hg
      simp [leftJoin, joinBlock, hnil]
    · simp only [leftJoin, List.mem_append]
      exact Or.inr (ih b hb' hnot)

/-- Every matching book-genre pair yields an output row of the left merge. -/
theorem leftJoin_mem_matched {β γ : Type} (genres : List (String × γ)) :
    ∀ (books : List (String × β)) (b : String × β), b ∈ books →
      ∀ g ∈ genres, g.1 = b.1 →
      (b.1, b.2, some g.2) ∈ leftJoin books genres := by
  intro books
  induction books with
  | nil => intro b hb; simp at hb
  | cons b' bs ih =>
    intro b hb g hg hgb
    rcases List.mem_cons.mp hb with hb' | hb'
    · subst hb'
      have hgf : g ∈ genres.filter (fun x => x.1 == b.1) :=
        List.mem_filter.mpr ⟨hg, by simpa using hgb⟩
      simp only [leftJoin, List.mem_append]
      refine Or.inl ?_
      unfold joinBlock
      rcases hf : genres.filter (fun x => x.1 == b.1) with _ | ⟨m, ms⟩
      · rw [hf] at hgf; simp at hgf
      · rw [hf] at hgf
        rw [hf]
        exact List.mem_map_of_mem
          (fun x : String × γ => (b.1, b.2, some x.2)) hgf
    · simp only [leftJoin, List.mem_append]
      exact Or.inr (ih b hb' g hg hgb)

/-- C2: combine_goodreads_and_hardcover is a left join of the book table
against the genre table on goodreads_id = external_id: every book row is
preserved (row count at least the book count, with equality when the genre
identifiers are pairwise distinct), a book whose identifier is absent from
the genre table is kept with an absent tags value, and duplicate identifiers
on either side produce one output row per matching pair (cross-product), so
the output length is the sum over books of max(match count, 1). -/
theorem C2_combine_left_join {β γ : Type} (books : List (String × β))
    (genres : List (String × γ)) :
    books.length ≤ (leftJoin books genres).length
    ∧ ((genres.map Prod.fst).Nodup →
        (leftJoin books genres).length = books.length)
    ∧ (∀ b ∈ books, b.1 ∉ genres.map Prod.fst →
        (b.1, b.2, (none : Option γ)) ∈ leftJoin books genres)
    ∧ (∀ b ∈ books, ∀ g ∈ genres, g.1 = b.1 →
        (b.1, b.2, some g.2) ∈ leftJoin books genres)
    ∧ (leftJoin books genres).length
        = (books.map
            (fun b => max (genres.filter (fun g => g.1 == b.1)).length 1)).sum := by
  refine ⟨?_, ?_, leftJoin_mem_unmatched genres books,
    leftJoin_mem_matched genres books, leftJoin_length books genres⟩
  · rw [leftJoin_length]
    exact length_le_sum_map books _ (fun b _ => by omega)
  · intro hnd
    rw [leftJoin_length]
    induction books with
    | nil => simp
    | cons b bs ih =>
      have hle := filter_key_len_le_one genres hnd b.1
      simp only [List.map_cons, List.sum_cons, List.length_cons, ih]
      omega

/-- Witness for C2 at concrete tables: with distinct genre keys the merge
preserves the book row count exactly. -/
theorem C2_witness :
    (leftJoin [("1", 10), ("2", 20)] [("1", ["fantasy"])]).length = 2 :=
  (C2_combine_left_join [("1", 10), ("2", 20)] [("1", ["fantasy"])]).2.1 (by decide)

/-- C3: for every input text date (and every behaviour of the backing
pd.to_datetime parser), the Date Normalizer maps the sentinel "not set" to
missing, maps a cell the extracting regex did not match to missing, maps a
value with exactly two whitespace-separated tokens to the parse of the value
with day "1" inserted between them (so "March 2020" is parsed as
"March 1, 2020"), parses any other value as-is (so "March 15, 2020" is
parsed unchanged), and maps every unparsable value to missing without
raising (errors="coerce"). -/
theorem C3_date_normalizer {α : Type} (parse : String → Option α) :
    format_and_convert_date parse (some "not set") = none
    ∧ format_and_convert_date parse none = none
    ∧ (∀ s : String, ∀ a b : List Char, s ≠ "not set" →
        splitWSAcc s.data [] = [a, b] →
        format_and_convert_date parse (some s)
          = parse (String.mk (a ++ ' ' :: '1' :: ',' :: ' ' :: b)))
    ∧ (∀ s : String, s ≠ "not set" → (splitWSAcc s.data []).length ≠ 2 →
        format_and_convert_date parse (some s) = parse s)
    ∧ format_and_convert_date parse (some "March 2020") = parse "March 1, 2020"
    ∧ format_and_convert_date parse (some "March 15, 2020")
        = parse "March 15, 2020"
    ∧ (∀ s : String, (∀ t, parse t = none) →
        format_and_convert_date parse (some s) = none) := by
  refine ⟨by simp [format_and_convert_date], rfl, ?_, ?_, rfl, rfl, ?_⟩
  · intro s a b hs hsplit
    simp [format_and_convert_date, hs, hsplit]
  · intro s hs hlen
    rcases h : splitWSAcc s.data [] with _ | ⟨a, _ | ⟨b, _ | ⟨c, rest⟩⟩⟩
    · simp [format_and_convert_date, hs, h]
    · simp [format_and_convert_date, hs, h]
    · rw [h] at hlen; simp at hlen
    · simp [format_and_convert_date, hs, h]
  · intro s hall
    by_cases hs : s = "not set"
    · simp [format_and_convert_date, hs]
    · rcases h : splitWSAcc s.data [] with _ | ⟨a, _ | ⟨b, _ | ⟨c, rest⟩⟩⟩ <;>
        simp [format_and_convert_date, hs, h, hall]

/-- Witness for C3: with a concrete parser accepting "March 1, 2020", the
month-year value "March 2020" is normalized and parsed. -/
theorem C3_witness :
    format_and_convert_date
      (fun t => if t = "March 1, 2020" then some (0 : Nat) else none)
      (some "March 2020") = some 0 := by
  have h := (C3_date_normalizer
      (fun t => if t = "March 1, 2020" then some (0 : Nat) else none)).2.2.1
    "March 2020" ['M', 'a', 'r', 'c', 'h'] ['2', '0', '2', '0']
    (by decide) (by decide)
  rw [h]
  decide

/-- Removing the first " *" from a star-free name followed by the trailing
marker removes exactly the trailing marker. -/
theorem replFirstL_star (l : List Char) (h : ∀ c ∈ l, c ≠ '*') :
    replFirstL [' ', '*'] [] (l ++ [' ', '*']) = l := by
  induction l with
  | nil => rfl
  | cons c cs ih =>
    have hpf : ([' ', '*'] : List Char).isPrefixOf (c :: (cs ++ [' ', '*'])) = false := by
      cases cs with
      | nil => simp [List.isPrefixOf_cons₂]
      | cons d ds =>
        have hd : ('*' == d) = false :=
          beq_eq_false_iff_ne.mpr (Ne.symm (h d (by simp)))
        simp [List.isPrefixOf_cons₂, hd]
    simp only [List.cons_append, replFirstL, List.append_eq, hpf,
      Bool.false_eq_true, if_false]
    rw [ih (fun x hx => h x (by simp [hx]))]

/-- C7 counterexample: the claim says mid-cell occurrences of "title " are
left unchanged, but the code's title transform removes the first occurrence
wherever it is: on the cell "My title Book" the code yields "My Book" while
the spec-modelled leading-marker strip leaves the cell unchanged. -/
theorem C7_counterexample :
    title_transform "My title Book" = "My Book"
    ∧ title_transform_spec "My title Book" = "My title Book"
    ∧ ("My Book" : String) ≠ "My title Book" := by
  refine ⟨by decide, by decide, by decide⟩

/-- C7 amended: the transforms remove the first occurrence of their marker
anywhere in the cell (then strip whitespace).  On cells of the shape the
scraper produces this is exactly the claim: a cell beginning with "title "
loses precisely that leading marker (later occurrences survive inside the
remainder), and an author cell "author NAME *" with no star inside NAME
loses precisely the leading "author " and the trailing " *". -/
theorem C7_strip_amended :
    (∀ s : String, title_transform ("title " ++ s) = pyStripS s)
    ∧ (∀ s : String, (∀ c ∈ s.data, c ≠ '*') →
        author_transform ("author " ++ s ++ " *") = pyStripS s) := by
  constructor
  · intro s
    show String.mk (pyStrip (replFirstL ("title ").data []
      (("title " ++ s)).data)) = pyStripS s
    rw [String.data_append,
      replFirstL_append ("title ").data s.data (by decide)]
    rfl
  · intro s h
    show String.mk (pyStrip (replFirstL (" *").data []
      (replFirstL ("author ").data [] (("author " ++ s ++ " *")).data)))
      = pyStripS s
    rw [String.data_append, String.data_append, List.append_assoc,
      replFirstL_append ("author ").data (s.data ++ (" *").data) (by decide),
      show (" *").data = [' ', '*'] from rfl, replFirstL_star s.data h]
    rfl

/-- Witness for C7 at a concrete star-free author cell. -/
theorem C7_witness :
    author_transform ("author " ++ "Jane" ++ " *") = pyStripS "Jane" :=
  C7_strip_amended.2 "Jane" (by decide)

/-- "not set" is not a prefix of a day-inserted date "A 1, B" at any offset
inside the whitespace-free first token. -/
theorem notset_not_pref (a b : List Char)
    (ha : ∀ c ∈ a, isPySpace c = false) :
    ("not set").data.isPrefixOf (a ++ ' ' :: '1' :: ',' :: ' ' :: b) = false := by
  have hns : ("not set").data = ['n', 'o', 't', ' ', 's', 'e', 't'] := rfl
  rw [hns]
  rcases a with _ | ⟨c, _ | ⟨d, _ | ⟨e, _ | ⟨f, a4⟩⟩⟩⟩
  · simp [List.isPrefixOf_cons₂]
  · simp [List.isPrefixOf_cons₂]
  · simp [List.isPrefixOf_cons₂]
  · simp [List.isPrefixOf_cons₂]
  · have hf : isPySpace f = false := ha f (by simp)
    have hne : (' ' : Char) ≠ f := by
      intro e
      rw [← e] at hf
      exact absurd hf (by decide)
    have hbeq := beq_eq_false_iff_ne.mpr hne
    simp [List.isPrefixOf_cons₂, hbeq]

/-- The sentinel "not set" never occurs in a day-inserted date built from
two whitespace-free tokens. -/
theorem containsSub_notset (a b : List Char)
    (ha : ∀ c ∈ a, isPySpace c = false) (hb : ∀ c ∈ b, isPySpace c = false) :
    containsSub ("not set").data (a ++ ' ' :: '1' :: ',' :: ' ' :: b)
      = false := by
  induction a with
  | nil =>
    simp only [List.nil_append, containsSub]
    simp [List.isPrefixOf_cons₂, containsSub_notset_spacefree b hb]
  | cons c cs ih =>
    have h1 := notset_not_pref (c :: cs) b ha
    have h2 := ih (fun x hx => ha x (by simp [hx]))
    simp only [List.cons_append] at h1 ⊢
    simp [containsSub, h1, h2]

/-- Python split() of a day-inserted date "A 1, B" recovers the three
tokens. -/
theorem splitWSAcc_insert (a b : List Char) (hane : a ≠ []) (hbne : b ≠ [])
    (ha : ∀ c ∈ a, isPySpace c = false) (hb : ∀ c ∈ b, isPySpace c = false) :
    splitWSAcc (a ++ ' ' :: '1' :: ',' :: ' ' :: b) [] = [a, ['1', ','], b] := by
  rw [splitWSAcc_run a (' ' :: '1' :: ',' :: ' ' :: b) [] ha]
  rw [List.append_nil]
  rw [splitWSAcc_space _ _ (by simpa using hane)]
  rw [List.reverse_reverse]
  rw [show ('1' :: ',' :: ' ' :: b) = ['1', ','] ++ (' ' :: b) from rfl]
  rw [splitWSAcc_run ['1', ','] (' ' :: b) [] (by decide)]
  rw [List.append_nil]
  rw [splitWSAcc_space _ _ (by decide)]
  rw [show b = b ++ [] from (List.append_nil b).symm, splitWSAcc_run b [] [] hb]
  simp [splitWSAcc, hbne]

/-- C8 counterexample: the title transform is not idempotent — re-applying
it to its own output "title X" (obtained from the cell "title title X")
strips a second marker. -/
theorem C8_counterexample :
    title_transform (title_transform "title title X")
      ≠ title_transform "title title X" := by decide

/-- C8 amended: re-parsing normalized text is a fixpoint for the date
day-insertion step unconditionally, and for the title / author transforms
exactly when their output no longer contains the stripped markers (a second
occurrence of a marker in the output is stripped again, as the
counterexample shows). -/
theorem C8_idempotence_amended :
    (∀ x : Option String, format_date (format_date x) = format_date x)
    ∧ (∀ s : String,
        containsSub ("title ").data (title_transform s).data = false →
        title_transform (title_transform s) = title_transform s)
    ∧ (∀ s : String,
        containsSub ("author ").data (author_transform s).data = false →
        containsSub (" *").data (author_transform s).data = false →
        author_transform (author_transform s) = author_transform s) := by
  refine ⟨?_, ?_, ?_⟩
  · intro x
    rcases x with _ | s
    · rfl
    · by_cases hns : containsSub ("not set").data s.data = true
      · simp [format_date, hns]
      · have hns' : containsSub ("not set").data s.data = false := by
          simpa using hns
        rcases hsp : splitWSAcc s.data [] with _ | ⟨a, _ | ⟨b, _ | ⟨c, rest⟩⟩⟩
        · have h1 : format_date (some s) = some s := by
            simp [format_date, hns', hsp]
          rw [h1]; exact h1
        · have h1 : format_date (some s) = some s := by
            simp [format_date, hns', hsp]
          rw [h1]; exact h1
        · have htok := splitWSAcc_tokens s.data [] (by simp)
          obtain ⟨hane, haw⟩ := htok a (by rw [hsp]; simp)
          obtain ⟨hbne, hbw⟩ := htok b (by rw [hsp]; simp)
          have h1 : format_date (some s)
              = some (String.mk (a ++ ' ' :: '1' :: ',' :: ' ' :: b)) := by
            simp [format_date, hns', hsp]
          rw [h1]
          have hnc := containsSub_notset a b haw hbw
          have hsp2 := splitWSAcc_insert a b hane hbne haw hbw
          simp [format_date, hnc, hsp2]
        · have h1 : format_date (some s) = some s := by
            simp [format_date, hns', hsp]
          rw [h1]; exact h1
  · intro s hnc
    show String.mk (pyStrip (replFirstL ("title ").data []
      (title_transform s).data)) = title_transform s
    rw [replFirstL_of_not_contains _ _ _ hnc,
      show (title_transform s).data
        = pyStrip (replFirstL ("title ").data [] s.data) from rfl,
      pyStrip_idem]
    rfl
  · intro s hna hnstar
    show String.mk (pyStrip (replFirstL (" *").data []
      (replFirstL ("author ").data [] (author_transform s).data)))
      = author_transform s
    rw [replFirstL_of_not_contains _ _ _ hna,
      replFirstL_of_not_contains _ _ _ hnstar,
      show (author_transform s).data
        = pyStrip (replFirstL (" *").data []
            (replFirstL ("author ").data [] s.data)) from rfl,
      pyStrip_idem]
    rfl

/-- Witness for C8: a marker-free cell is a fixpoint of the title
transform. -/
theorem C8_witness :
    title_transform (title_transform "liked it") = title_transform "liked it" :=
  C8_idempotence_amended.2.1 "liked it" (by decide)

/-- The marker "'s rating" spelled as an explicit character list (the
apostrophe written numerically). -/
theorem marker_chars :
    ("'s rating").data
      = Char.ofNat 39
          :: ('s' :: ' ' :: 'r' :: 'a' :: 't' :: 'i' :: 'n' :: 'g' :: []) := by
  decide

/-- On a cell of the shape "Ben's rating " ++ p the regex captures exactly
the text after the marker (the space then p). -/
theorem afterFirstMarker_rating (p : List Char) :
    afterFirstMarker ("'s rating").data (("Ben's rating ").data ++ p)
      = some (' ' :: p) := by
  have hd : ("Ben's rating ").data
      = 'B' :: 'e' :: 'n' :: (("'s rating").data ++ [' ']) := by decide
  have hpre : ("'s rating").data.isPrefixOf
      (("'s rating").data ++ ([' '] ++ p)) = true := by
    rw [List.isPrefixOf_iff_prefix]
    exact ⟨[' '] ++ p, rfl⟩
  have he : ((Char.ofNat 39) == 'e') = false := by decide
  have hn : ((Char.ofNat 39) == 'n') = false := by decide
  rw [hd, List.cons_append, List.cons_append, List.cons_append,
    List.append_assoc]
  rw [afterFirstMarker]
  rw [show ("'s rating").data.isPrefixOf
      ('e' :: 'n' :: (("'s rating").data ++ ([' '] ++ p))) = false by
    rw [marker_chars]; simp [List.isPrefixOf_cons₂, he]]
  rw [afterFirstMarker]
  rw [show ("'s rating").data.isPrefixOf
      ('n' :: (("'s rating").data ++ ([' '] ++ p))) = false by
    rw [marker_chars]; simp [List.isPrefixOf_cons₂, hn]]
  rw [afterFirstMarker, hpre]
  simp [marker_chars]

/-- C4: the user_rating transform takes the text after "'s rating"
(whitespace-stripped, as the regex tail and str.strip do), and maps it
through the fixed five-phrase vocabulary: "did not like it" to 1, "it was
ok" to 2, "liked it" to 3, "really liked it" to 4, "it was amazing" to 5;
any other phrase maps to missing, and a cell from which nothing can be
extracted (the regex fails) maps to missing. -/
theorem C4_user_rating :
    rating_mapping "did not like it" = some 1
    ∧ rating_mapping "it was ok" = some 2
    ∧ rating_mapping "liked it" = some 3
    ∧ rating_mapping "really liked it" = some 4
    ∧ rating_mapping "it was amazing" = some 5
    ∧ (∀ s : String, s ≠ "did not like it" → s ≠ "it was ok" →
        s ≠ "liked it" → s ≠ "really liked it" → s ≠ "it was amazing" →
        rating_mapping s = none)
    ∧ (∀ p : String, user_rating_transform ("Ben's rating " ++ p)
        = rating_mapping (pyStripS p))
    ∧ (∀ cell : String, afterFirstMarker ("'s rating").data cell.data = none →
        user_rating_transform cell = none) := by
  refine ⟨rfl, rfl, rfl, rfl, rfl, ?_, ?_, ?_⟩
  · intro s h1 h2 h3 h4 h5
    simp [rating_mapping, h1, h2, h3, h4, h5]
  · intro p
    unfold user_rating_transform
    rw [String.data_append, afterFirstMarker_rating p.data]
    show rating_mapping (String.mk (pyStrip (' ' :: p.data)))
      = rating_mapping (pyStripS p)
    rw [pyStrip_cons_space]
    rfl
  · intro cell h
    simp [user_rating_transform, h]

/-- Witness for C4: an off-vocabulary phrase maps to missing, and a
well-formed rating cell maps to its vocabulary value. -/
theorem C4_witness :
    rating_mapping "meh" = none
    ∧ user_rating_transform ("Ben's rating " ++ "liked it") = some 3 := by
  constructor
  · exact C4_user_rating.2.2.2.2.2.1 "meh"
      (by decide) (by decide) (by decide) (by decide) (by decide)
  · have h := C4_user_rating.2.2.2.2.2.2.1 "liked it"
    rw [h]; decide

/-- A list of digits is unchanged by takeWhile isDigit. -/
theorem takeWhile_digits (l : List Char) (h : ∀ c ∈ l, c.isDigit = true) :
    l.takeWhile Char.isDigit = l := by
  induction l with
  | nil => rfl
  | cons c cs ih =>
    have hc : c.isDigit = true := h c (by simp)
    rw [List.takeWhile_cons, hc, if_pos rfl, ih (fun x hx => h x (by simp [hx]))]

/-- On a well-formed votes cell "# times read N" the first digit run in the
cell is exactly N. -/
theorem extractFirstInt_marker (d : Char) (ds : List Char)
    (hd : d.isDigit = true) (hds : ∀ c ∈ ds, c.isDigit = true) :
    extractFirstInt (("# times read ").data ++ (d :: ds))
      = some (digitsToNat (d :: ds)) := by
  have hm : ("# times read ").data
      = '#' :: ' ' :: 't' :: 'i' :: 'm' :: 'e' :: 's' :: ' ' :: 'r' :: 'e'
          :: 'a' :: 'd' :: ' ' :: [] := rfl
  rw [hm]
  simp only [List.cons_append, List.nil_append, extractFirstInt]
  simp [hd, takeWhile_digits ds hds,
    show ('#').isDigit = false from by decide,
    show (' ').isDigit = false from by decide,
    show ('t').isDigit = false from by decide,
    show ('i').isDigit = false from by decide,
    show ('m').isDigit = false from by decide,
    show ('e').isDigit = false from by decide,
    show ('s').isDigit = false from by decide,
    show ('r').isDigit = false from by decide,
    show ('a').isDigit = false from by decide,
    show ('d').isDigit = false from by decide]

/-- C5 counterexample: on the cell "7 # times read 0" the integer following
"# times read" is 0, yet the code sets read_flag to true, because it
extracts the first digit run anywhere in the cell (the 7). -/
theorem C5_counterexample :
    read_flag_transform "7 # times read 0" = true
    ∧ read_flag_spec_int "7 # times read 0" = some 0 := by
  exact ⟨by decide, by decide⟩

/-- C5 amended: read_flag is computed from the first digit run anywhere in
the votes cell — true iff such a run exists and its value exceeds 0; a cell
with no digits yields false (NaN > 0 is False), not a missing value.  On
cells of the well-formed shape "# times read N" this coincides with the
integer following the marker. -/
theorem C5_read_flag_amended :
    (∀ cell : String, read_flag_transform cell = true ↔
      (∃ n, extractFirstInt cell.data = some n ∧ 0 < n))
    ∧ (∀ cell : String, extractFirstInt cell.data = none →
        read_flag_transform cell = false)
    ∧ (∀ d : Char, ∀ ds : List Char, d.isDigit = true →
        (∀ c ∈ ds, c.isDigit = true) →
        read_flag_transform (String.mk (("# times read ").data ++ (d :: ds)))
          = decide (0 < digitsToNat (d :: ds))) := by
  refine ⟨?_, ?_, ?_⟩
  · intro cell
    unfold read_flag_transform
    rcases h : extractFirstInt cell.data with _ | n
    · simp
    · simp
  · intro cell h
    simp [read_flag_transform, h]
  · intro d ds hd hds
    unfold read_flag_transform
    rw [show (String.mk (("# times read ").data ++ (d :: ds))).data
      = ("# times read ").data ++ (d :: ds) from rfl]
    rw [extractFirstInt_marker d ds hd hds]

/-- Witness for C5 at the well-formed cell "# times read 4". -/
theorem C5_witness :
    read_flag_transform (String.mk (("# times read ").data ++ (['4'])))
      = true := by
  have h := C5_read_flag_amended.2.2 '4' [] (by decide) (by simp)
  rw [h]; decide

/-- C6 counterexample: a page whose canonical link tag lacks its href
attribute makes get_user_info raise (uncaught KeyError) instead of
returning a ten-field record, so "no input page ever causes the function to
raise" fails. -/
theorem C6_counterexample :
    get_user_info noMatchers soupKeyErr = Except.error () := rfl

/-- C6 amended: get_user_info builds a record of exactly ten text fields in
which every field is computed independently from its own lookup, and a
failed find or failed pattern match yields the empty string for that field
only, every other field still being populated — provided no located tag
lacks the accessed attribute.  When a located tag lacks the attribute (for
example the canonical link without href) the function raises instead of
returning a record. -/
theorem C6_user_info_amended (m : PageMatchers) (s : Soup) :
    (s.canonical_link ≠ some none → s.og_title ≠ some none →
      s.profile_first_name ≠ some none → s.profile_last_name ≠ some none →
      s.profile_username ≠ some none →
      get_user_info m s = Except.ok
        ⟨(s.canonical_link.join.map extract_user_id).getD "",
          s.og_title.join.getD "",
          s.profile_first_name.join.getD "",
          s.profile_last_name.join.getD "",
          s.profile_username.join.getD "",
          ((s.title_text.bind m.books_shelved_search).map removeCommas).getD "",
          (m.friends_search s.text).getD "",
          ((m.books_read_search s.text).map removeCommas).getD "",
          ((m.currently_reading_search s.text).map removeCommas).getD "",
          ((m.to_read_search s.text).map removeCommas).getD ""⟩)
    ∧ (s.canonical_link = some none → get_user_info m s = Except.error ()) := by
  constructor
  · intro h1 h2 h3 h4 h5
    obtain ⟨c, t, x, o, fn, ln, un⟩ := s
    rcases c with _ | (_ | cv) <;> rcases o with _ | (_ | ov) <;>
      rcases fn with _ | (_ | fv) <;> rcases ln with _ | (_ | lv) <;>
      rcases un with _ | (_ | uv) <;>
      first
      | rfl
      | exact absurd rfl h1
      | exact absurd rfl h2
      | exact absurd rfl h3
      | exact absurd rfl h4
      | exact absurd rfl h5
  · intro hc
    obtain ⟨c, t, x, o, fn, ln, un⟩ := s
    have hc' : c = some none := hc
    subst hc'
    rfl

/-- Witness for C6 at a fully populated page with failing regex searches:
the tag-backed fields populate and the regex-backed fields default to the
empty string. -/
theorem C6_witness :
    get_user_info noMatchers soupOk
      = Except.ok ⟨"123", "Jane Doe", "Jane", "Doe", "janed", "", "", "", "",
          ""⟩ := by
  have h := (C6_user_info_amended noMatchers soupOk).1
    (by decide) (by decide) (by decide) (by decide) (by decide)
  rw [h]
  rfl

/-- C9: for every configured secret and supplied header, get_api_key either
returns the supplied key (exactly when it equals the configured secret) or
fails with the single fixed unauthorized error (401, "401: Invalid API Key");
no other outcome is possible. -/
theorem C9_get_api_key (secret : Option String) (header : String) :
    (some header = secret ∧ get_api_key secret header = Except.ok header) ∨
    (some header ≠ secret ∧
      get_api_key secret header = Except.error (401, "401: Invalid API Key")) := by
  by_cases h : some header = secret
  · exact Or.inl ⟨h, by simp [get_api_key, h]⟩
  · exact Or.inr ⟨h, by simp [get_api_key, h]⟩

/-- C10: when the BOOKBLEND_API_KEY environment variable is unset (the secret
is the null value), get_api_key rejects every supplied header with the
unauthorized error; in particular no header, not even the empty string,
is ever accepted. -/
theorem C10_get_api_key_unset (header : String) :
    get_api_key none header = Except.error (401, "401: Invalid API Key") := by
  simp [get_api_key]
